import Mathlib

/-!
Verification of the music_tutor real-time practice engine.

Shallow embedding of the core data model and operations:
* `MusicTutor.Dict` — Python `dict` modelled as an insertion-ordered
  association list (overwrite keeps position, delete removes the key).
* `MusicTutor.NoteProc` — `src/midi/note_processor_new.py` (`NoteProcessor`).
* `MusicTutor.Music` — `src/music/phrase.py` (`MusicalNote`, `Phrase` validation).
* `MusicTutor.Recording` — `src/music/listening_manager.py`
  (`_convert_midi_recording_to_phrase`).
* `MusicTutor.Synth` — `src/audio/synthesizer.py` (`AudioSynthesizer`).
* `MusicTutor.Session` — the session state machine of
  `src/music/listening_manager.py`, as a labelled transition system.
* `MusicTutor.Eval` — `src/evaluation/claude_evaluator.py` fallback evaluation.
* `MusicTutor.Player` — `src/music/phrase_player.py` downbeat computation.
* `MusicTutor.Drums` — `src/audio/drum_engine.py` tempo clamping.

Python floats are modelled as ℚ; the floating-point transcendental
operations (`np.sin`, `2*np.pi`, equal-temperament frequency) are abstracted
as parameters, since no claim depends on their values.
-/

namespace MusicTutor

namespace Dict

/-- Python dict read: first (and, for dicts, only) binding of the key. -/
def dget {κ α : Type} [DecidableEq κ] : List (κ × α) → κ → Option α
  | [], _ => none
  | (k', v) :: rest, k => if k' = k then some v else dget rest k

/-- Python dict write `d[k] = v`: overwrite in place, else append at the end. -/
def dset {κ α : Type} [DecidableEq κ] : List (κ × α) → κ → α → List (κ × α)
  | [], k, v => [(k, v)]
  | (k', v') :: rest, k, v =>
      if k' = k then (k, v) :: rest else (k', v') :: dset rest k v

/-- Python dict delete `del d[k]` (dict keys are unique, so removing all
bindings of `k` agrees with removing the one binding). -/
def ddel {κ α : Type} [DecidableEq κ] : List (κ × α) → κ → List (κ × α)
  | [], _ => []
  | (k', v') :: rest, k =>
      if k' = k then ddel rest k else (k', v') :: ddel rest k

end Dict

namespace NoteProc

open Dict

/-- Python `MIDINote` of src/midi/note_processor_new.py. -/
structure MIDINote where
  pitch : Nat
  velocity : Nat
  timestamp : ℚ
  duration : Option ℚ
deriving DecidableEq, Repr

/-- Mutable state of `NoteProcessor`: `active_notes` maps a pitch to
`(velocity, start_timestamp)`; `completed_notes` accumulates records;
`session_start_time` is set lazily on the first event. -/
structure State where
  activeNotes : List (Nat × (Nat × ℚ))
  completedNotes : List MIDINote
  sessionStartTime : Option ℚ
deriving DecidableEq, Repr

/-- Python `NoteProcessor._handle_note_on`: a pitch already active is closed first
(duration `timestamp - start`, start reported relative to session start) and
the new note-on replaces it; returns the closed record if any. -/
def handleNoteOn (pitch velocity : Nat) (timestamp : ℚ) (st : State) :
    Option MIDINote × State :=
  let completed : Option MIDINote :=
    match dget st.activeNotes pitch, st.sessionStartTime with
    | some (prevVel, start), some s0 =>
        some ⟨pitch, prevVel, start - s0, some (timestamp - start)⟩
    | _, _ => none
  let completedList :=
    match completed with
    | some n => st.completedNotes ++ [n]
    | none => st.completedNotes
  (completed,
    { st with
        activeNotes := dset st.activeNotes pitch (velocity, timestamp)
        completedNotes := completedList })

/-- Python `NoteProcessor._handle_note_off`: ignored when the pitch has no open
note; otherwise closes it and appends the completed record. -/
def handleNoteOff (pitch : Nat) (timestamp : ℚ) (st : State) :
    Option MIDINote × State :=
  match dget st.activeNotes pitch with
  | none => (none, st)
  | some (startVel, start) =>
      let durTs : ℚ × ℚ :=
        match st.sessionStartTime with
        | some s0 => (timestamp - start, start - s0)
        | none => (0, 0)
      let n : MIDINote := ⟨pitch, startVel, durTs.2, some durTs.1⟩
      (some n,
        { st with
            activeNotes := ddel st.activeNotes pitch
            completedNotes := st.completedNotes ++ [n] })

/-- Python `NoteProcessor.process_midi_event` restricted to the note-on/note-off
message types (other message types return `None` and do not touch the note
state); establishes `session_start_time` on the first event, treats a
note-on with velocity 0 as a note-off. -/
def processMidiEvent (message : List Nat) (timestamp : ℚ) (st : State) :
    Option MIDINote × State :=
  match message with
  | [] => (none, st)
  | status :: rest =>
      let st1 : State :=
        match st.sessionStartTime with
        | some _ => st
        | none => { st with sessionStartTime := some timestamp }
      let messageType := status &&& 0xF0
      if messageType = 0x90 then
        match rest with
        | pitch :: velocity :: _ =>
            if velocity = 0 then handleNoteOff pitch timestamp st1
            else handleNoteOn pitch velocity timestamp st1
        | _ => (none, st1)
      else if messageType = 0x80 then
        match rest with
        | pitch :: _ :: _ => handleNoteOff pitch timestamp st1
        | _ => (none, st1)
      else (none, st1)

end NoteProc

namespace Music

/-- Python `MusicalNote` of src/music/phrase.py: MIDI pitch, beat-based start and
duration, MIDI velocity.  Python ints are modelled as ℤ so that range
checks are meaningful. -/
structure MusicalNote where
  pitch : ℤ
  startTime : ℚ
  duration : ℚ
  velocity : ℤ
deriving DecidableEq, Repr

/-- Python `MusicalNote.__post_init__`: validation performed at construction, in
source order; a failed check raises `ValueError`. -/
def mkMusicalNote (pitch : ℤ) (startTime duration : ℚ) (velocity : ℤ) :
    Except String MusicalNote :=
  if ¬(0 ≤ pitch ∧ pitch ≤ 127) then .error "MIDI pitch must be 0-127"
  else if ¬(0 ≤ velocity ∧ velocity ≤ 127) then .error "MIDI velocity must be 0-127"
  else if startTime < 0 then .error "Start time must be >= 0"
  else if duration ≤ 0 then .error "Duration must be > 0"
  else .ok ⟨pitch, startTime, duration, velocity⟩

/-- The metadata fields of a `Phrase` that `_validate_metadata` validates;
`none` means the key was absent so the `setdefault` value is used. -/
structure MetadataInput where
  difficulty : Option ℤ
  bars : Option ℤ
  tempo : Option ℚ
deriving DecidableEq, Repr

/-- A constructed `Phrase` (the validated projection used by the core). -/
structure Phrase where
  notes : List MusicalNote
  difficulty : ℤ
  bars : ℤ
  tempo : ℚ
deriving DecidableEq, Repr

/-- Python `Phrase._validate_metadata`: defaults difficulty 2, bars 2, tempo 120,
then requires difficulty in 1..5, bars in {1, 2, 4}, tempo > 0. -/
def validateMetadata (m : MetadataInput) : Except String (ℤ × ℤ × ℚ) :=
  let difficulty := m.difficulty.getD 2
  let bars := m.bars.getD 2
  let tempo := m.tempo.getD 120
  if ¬(1 ≤ difficulty ∧ difficulty ≤ 5) then .error "Difficulty must be 1-5"
  else if ¬(bars = 1 ∨ bars = 2 ∨ bars = 4) then .error "Bars must be 1, 2, or 4"
  else if tempo ≤ 0 then .error "Tempo must be > 0"
  else .ok (difficulty, bars, tempo)

/-- Python `Phrase.__init__`: stores the notes and the validated metadata. -/
def mkPhrase (notes : List MusicalNote) (m : MetadataInput) :
    Except String Phrase :=
  match validateMetadata m with
  | .error e => .error e
  | .ok (difficulty, bars, tempo) => .ok ⟨notes, difficulty, bars, tempo⟩

end Music

namespace Recording

open Dict Music

/-- A raw event captured in `_recorded_midi_events` during the response
window: `{'type': 'note_on'/'note_off', 'note', 'velocity', 'timestamp'}`. -/
inductive RecEvent where
  | on (note velocity : ℤ) (timestamp : ℚ)
  | off (note : ℤ) (timestamp : ℚ)
deriving DecidableEq, Repr

/-- The event loop of `_convert_midi_recording_to_phrase`: a note-on is
stored in `active_notes` (overwriting), a note-off whose pitch is active
closes it into a `MusicalNote` with start beat `on.timestamp * bps` and
duration `max 0.1 ((off.timestamp - on.timestamp) * bps)`; a raised
`ValueError` from note construction propagates (to the `except` handler). -/
def pairEvents (bps : ℚ) :
    List RecEvent → List (ℤ × (ℤ × ℚ)) → List MusicalNote →
    Except String (List MusicalNote × List (ℤ × (ℤ × ℚ)))
  | [], activeNotes, notes => .ok (notes, activeNotes)
  | .on n v ts :: rest, activeNotes, notes =>
      pairEvents bps rest (dset activeNotes n (v, ts)) notes
  | .off n ts :: rest, activeNotes, notes =>
      match dget activeNotes n with
      | none => pairEvents bps rest activeNotes notes
      | some (v, onTs) =>
          match mkMusicalNote n (onTs * bps) (max (1/10) ((ts - onTs) * bps)) v with
          | .error e => .error e
          | .ok note => pairEvents bps rest (ddel activeNotes n) (notes ++ [note])

/-- The cleanup loop of `_convert_midi_recording_to_phrase`: every pitch
still open at the end of the recording becomes a note with the fixed
fallback duration 0.5 beats. -/
def finalizeOpenNotes (bps : ℚ) :
    List (ℤ × (ℤ × ℚ)) → Except String (List MusicalNote)
  | [] => .ok []
  | (n, (v, ts)) :: rest =>
      match mkMusicalNote n (ts * bps) (1/2) v with
      | .error e => .error e
      | .ok note =>
          match finalizeOpenNotes bps rest with
          | .error e => .error e
          | .ok more => .ok (note :: more)

/-- Python `max(note.start_time + note.duration for note in notes)` (Python `max`
over a nonempty sequence). -/
def phraseDurationBeats (n : MusicalNote) (rest : List MusicalNote) : ℚ :=
  rest.foldl (fun acc nt => max acc (nt.startTime + nt.duration))
    (n.startTime + n.duration)

/-- Python `PhraseListeningManager._convert_midi_recording_to_phrase`: `None` on an
empty recording; otherwise pairs events at `bps = bpm / 60`, finalizes open
notes, and builds a `Phrase` with difficulty 1, tempo `bpm`, and
`bars = min(max(1, int(duration / 4)), 4)`; any exception yields `None`.
(`int` truncation agrees with `⌊·⌋` since the duration is nonnegative.) -/
def convertMidiRecordingToPhrase (events : List RecEvent) (bpm : ℚ) :
    Option Phrase :=
  match events with
  | [] => none
  | _ :: _ =>
      let bps := bpm / 60
      let result : Except String (Option Phrase) :=
        match pairEvents bps events [] [] with
        | .error e => .error e
        | .ok (paired, activeNotes) =>
            match finalizeOpenNotes bps activeNotes with
            | .error e => .error e
            | .ok extra =>
                match paired ++ extra with
                | [] => .ok none
                | n :: ns =>
                    let durationBeats := phraseDurationBeats n ns
                    let estimatedBars : ℤ := max 1 ⌊durationBeats / 4⌋
                    match mkPhrase (n :: ns)
                        ⟨some 1, some (min estimatedBars 4), some bpm⟩ with
                    | .error e => .error e
                    | .ok ph => .ok (some ph)
      match result with
      | .error _ => none
      | .ok o => o

end Recording

namespace Session

/-- Python `SessionState` of src/music/listening_manager.py. -/
inductive SState where
  | idle | playback | listening | recording | feedback
deriving DecidableEq, Repr

/-- The recommendation values acted on by `_enter_playback_state`
(`REPEAT`, `SIMPLIFY`, `COMPLEXIFY`, `CURRENT_COMPLEXITY_NEW_PHRASE`). -/
inductive Recommendation where
  | repeatPhrase | simplify | complexify | newPhrase
deriving DecidableEq, Repr

/-- The lock-protected session fields of `PhraseListeningManager` relevant to
the state machine, together with the background workers whose timed waits
are still pending: `pendingListen` counts sleeping `_listening_worker`
threads, `pendingRec` sleeping `_recording_worker` timers, `pendingEvalRun`
evaluation calls in flight and `pendingEvalDone` evaluations waiting out the
display pause in `_claude_evaluation_worker`.  Worker threads are daemons:
they survive `stop_session` and only re-check `session_active` (not the
state, and not which session spawned them) when they wake. -/
structure MState where
  st : SState
  sessionActive : Bool
  phrase : Option Nat
  lastRec : Option Recommendation
  pendingListen : Nat
  pendingRec : Nat
  pendingEvalRun : Nat
  pendingEvalDone : Nat
deriving DecidableEq, Repr

/-- The recommendations for which `_enter_playback_state` clears
`current_phrase` to force selection of a new one. -/
def clearsPhrase : Option Recommendation → Bool
  | some .simplify => true
  | some .complexify => true
  | some .newPhrase => true
  | _ => false

/-- Python `_enter_playback_state` (callers hold the lock and have checked
`session_active`): a clearing recommendation drops the current phrase; if no
phrase remains, the recommendation is consumed and a phrase `sel` is chosen
from the library (`none` when the library has nothing to offer); otherwise
the current phrase is kept and replayed. -/
def enterPlayback (m : MState) (sel : Option Nat) : MState :=
  if clearsPhrase m.lastRec = true ∨ m.phrase = none then
    { m with st := .playback, phrase := sel, lastRec := none }
  else
    { m with st := .playback }

/-- The state before any session: `IDLE`, inactive, no workers pending. -/
def MState.init : MState := ⟨.idle, false, none, none, 0, 0, 0, 0⟩

/-- Labels for the serialized (lock-protected) actions of the manager. -/
inductive Act where
  | start (sel : Option Nat)
  | stop
  | phraseFinished
  | listenTimeout (sel : Option Nat)
  | listenInput
  | recTimerFire
  | evalReturn (r : Option Recommendation)
  | evalPause (sel : Option Nat)
deriving DecidableEq, Repr

/-- One lock-protected action of the session machinery.  Each rule records
exactly the guard the code checks before mutating state:
* `start`: `start_session` (rejects when already active) enters `PLAYBACK`.
* `stop`: `stop_session` deactivates and enters `IDLE`; pending worker
  timers are untouched (daemon threads keep sleeping).
* `phraseFinished`: `_on_phrase_finished` transitions `PLAYBACK → LISTENING`
  only in `PLAYBACK`, spawning a `_listening_worker`.
* `listenTimeout`: a listening worker times out; it checks only
  `session_active` before entering `PLAYBACK`.
* `listenInput`: a listening worker sees the user-input flag (set only in
  `LISTENING`) and enters `RECORDING_RESPONSE`, spawning `_recording_worker`.
* `recTimerFire`: a recording timer expires; it checks only
  `session_active` before entering `FEEDBACK` and spawning the evaluation.
* `evalReturn`: `_evaluate_with_claude` returns and stores the
  recommendation (without the lock) — `none` models a fallback evaluation,
  which leaves `_last_recommendation` unchanged.
* `evalPause`: the display pause ends; the worker checks only
  `session_active` before entering `PLAYBACK`. -/
inductive Step : MState → Act → MState → Prop where
  | start (m : MState) (sel : Option Nat) (h : m.sessionActive = false) :
      Step m (.start sel) (enterPlayback { m with sessionActive := true } sel)
  | stop (m : MState) (h : m.sessionActive = true) :
      Step m .stop { m with sessionActive := false, st := .idle }
  | phraseFinished (m : MState) (ha : m.sessionActive = true) (hs : m.st = .playback) :
      Step m .phraseFinished
        { m with st := .listening, pendingListen := m.pendingListen + 1 }
  | listenTimeout (m : MState) (sel : Option Nat) (k : Nat)
      (h : m.pendingListen = k + 1) (ha : m.sessionActive = true) :
      Step m (.listenTimeout sel) (enterPlayback { m with pendingListen := k } sel)
  | listenTimeoutInactive (m : MState) (sel : Option Nat) (k : Nat)
      (h : m.pendingListen = k + 1) (ha : m.sessionActive = false) :
      Step m (.listenTimeout sel) { m with pendingListen := k }
  | listenInput (m : MState) (k : Nat)
      (h : m.pendingListen = k + 1) (ha : m.sessionActive = true)
      (hs : m.st = .listening) :
      Step m .listenInput
        { m with st := .recording, pendingListen := k,
                 pendingRec := m.pendingRec + 1 }
  | recTimerFire (m : MState) (k : Nat)
      (h : m.pendingRec = k + 1) (ha : m.sessionActive = true) :
      Step m .recTimerFire
        { m with st := .feedback, pendingRec := k,
                 pendingEvalRun := m.pendingEvalRun + 1 }
  | recTimerFireInactive (m : MState) (k : Nat)
      (h : m.pendingRec = k + 1) (ha : m.sessionActive = false) :
      Step m .recTimerFire { m with pendingRec := k }
  | evalReturn (m : MState) (r : Option Recommendation) (k : Nat)
      (h : m.pendingEvalRun = k + 1) :
      Step m (.evalReturn r)
        { m with pendingEvalRun := k, pendingEvalDone := m.pendingEvalDone + 1,
                 lastRec := match r with | some x => some x | none => m.lastRec }
  | evalPause (m : MState) (sel : Option Nat) (k : Nat)
      (h : m.pendingEvalDone = k + 1) (ha : m.sessionActive = true) :
      Step m (.evalPause sel) (enterPlayback { m with pendingEvalDone := k } sel)
  | evalPauseInactive (m : MState) (sel : Option Nat) (k : Nat)
      (h : m.pendingEvalDone = k + 1) (ha : m.sessionActive = false) :
      Step m (.evalPause sel) { m with pendingEvalDone := k }

/-- States reachable from process start through any interleaving. -/
inductive Reachable : MState → Prop where
  | init : Reachable .init
  | step (m : MState) (a : Act) (m' : MState) :
      Reachable m → Step m a m' → Reachable m'

/-- States reachable without ever stopping the session (a single run). -/
inductive ReachableNoStop : MState → Prop where
  | init : ReachableNoStop .init
  | step (m : MState) (a : Act) (m' : MState) :
      ReachableNoStop m → Step m a m' → a ≠ .stop → ReachableNoStop m'

/-- Claim C3 as stated: in every reachable execution, a listening timeout
enters `PLAYBACK` keeping the current phrase, and `FEEDBACK` is entered only
from `RECORDING_RESPONSE`. -/
def SessionSafetyClaim : Prop :=
  (∀ (m : MState) (sel : Option Nat) (m' : MState) (p : Nat),
      Reachable m → m.st = .listening → m.phrase = some p →
      Step m (.listenTimeout sel) m' → m'.st = .playback ∧ m'.phrase = some p) ∧
  (∀ (m : MState) (a : Act) (m' : MState),
      Reachable m → Step m a m' → m.st ≠ .feedback → m'.st = .feedback →
      m.st = .recording)

/-- A recommendation that does not force a phrase change. -/
def goodRec (r : Option Recommendation) : Prop :=
  r = none ∨ r = some .repeatPhrase

/-- Inductive invariant of single-run (no-stop) executions: the active flag
mirrors non-`IDLE`, each worker exists exactly while its phase is current,
and outside `FEEDBACK` the stored recommendation never forces a new
phrase. -/
def Inv (m : MState) : Prop :=
  (m.sessionActive = true ↔ m.st ≠ .idle) ∧
  m.pendingListen = (if m.st = .listening then 1 else 0) ∧
  m.pendingRec = (if m.st = .recording then 1 else 0) ∧
  m.pendingEvalRun + m.pendingEvalDone = (if m.st = .feedback then 1 else 0) ∧
  ((m.st = .playback ∨ m.st = .listening ∨ m.st = .recording) → goodRec m.lastRec)

end Session

namespace Eval

/-- Python `ClaudeEvaluation` of src/evaluation/claude_evaluator.py. -/
structure ClaudeEvaluation where
  grade : String
  positiveFeedback : String
  improvementFeedback : String
  recommendation : String
  confidence : ℚ
deriving DecidableEq, Repr

/-- Python `ClaudeEvaluator.get_fallback_evaluation`: a rule-based evaluation from
the ratio of response to target note counts. -/
def getFallbackEvaluation (targetPhrase studentPhrase : Music.Phrase) :
    ClaudeEvaluation :=
  let countFrac : ℚ :=
    (studentPhrase.notes.length : ℚ) / (max targetPhrase.notes.length 1 : ℚ)
  if 8/10 ≤ countFrac then
    ⟨"B+", "Good effort attempting the full phrase!",
      "Continue practicing to refine pitch and timing accuracy.",
      "REPEAT", 1/2⟩
  else if 1/2 ≤ countFrac then
    ⟨"C+", "Nice work on the notes you played!",
      "Try to play all the notes in the phrase.", "REPEAT", 1/2⟩
  else
    ⟨"C", "Keep practicing - you are making progress!",
      "Focus on listening carefully to the full phrase.", "SIMPLIFY", 1/2⟩

/-- The outcome of the external evaluator call inside
`_evaluate_with_claude`: a raised exception, `None`, or an evaluation. -/
def evaluateWithClaude (outcome : Except String (Option ClaudeEvaluation))
    (targetPhrase studentPhrase : Music.Phrase) : ClaudeEvaluation :=
  match outcome with
  | .ok (some e) => e
  | .ok none => getFallbackEvaluation targetPhrase studentPhrase
  | .error _ => getFallbackEvaluation targetPhrase studentPhrase

/-- The grade of the fallback evaluation as a function of the two note
counts alone. -/
def fallbackGradeOfCounts (targetCount studentCount : Nat) : String :=
  let countFrac : ℚ := (studentCount : ℚ) / (max targetCount 1 : ℚ)
  if 8/10 ≤ countFrac then "B+"
  else if 1/2 ≤ countFrac then "C+"
  else "C"

end Eval

namespace Synth

open Dict

/-- The floating-point operations of the synthesizer that have no exact
rational counterpart, abstracted as parameters: `np.sin`, the constant
`2 * np.pi`, and `midi_to_frequency` (`440 * 2 ** ((p - 69) / 12)`).  None
of the verified claims depend on their values. -/
structure FloatOps where
  osc : ℚ → ℚ
  twoPi : ℚ
  freqOf : Nat → ℚ

/-- Python `ActiveNote` of src/audio/synthesizer.py. -/
structure ActiveNote where
  midiNote : Nat
  frequency : ℚ
  velocity : ℚ
  startTime : ℚ
  phase : ℚ
deriving DecidableEq, Repr

/-- Python `ADSREnvelope` parameters. -/
structure ADSREnvelope where
  attack : ℚ
  decay : ℚ
  sustain : ℚ
  release : ℚ
deriving DecidableEq, Repr

/-- Python `ADSREnvelope.get_amplitude`. -/
def ADSREnvelope.getAmplitude (e : ADSREnvelope) (timeSinceStart : ℚ)
    (noteReleased : Bool) (timeSinceRelease : ℚ) : ℚ :=
  if noteReleased then
    if e.release ≤ timeSinceRelease then 0
    else e.sustain * (1 - timeSinceRelease / e.release)
  else if timeSinceStart < e.attack then timeSinceStart / e.attack
  else if timeSinceStart < e.attack + e.decay then
    1 - ((timeSinceStart - e.attack) / e.decay) * (1 - e.sustain)
  else e.sustain

/-- The `AudioSynthesizer` note collections and generation parameters:
`active_notes` maps pitch to `ActiveNote`, `released_notes` maps pitch to
`(note, release_time)`. -/
structure SynthState where
  activeNotes : List (Nat × ActiveNote)
  releasedNotes : List (Nat × (ActiveNote × ℚ))
  envelope : ADSREnvelope
  masterVolume : ℚ
  sampleRate : ℚ
deriving DecidableEq, Repr

/-- Python `AudioSynthesizer.note_on`: drop the pitch from the released set if
present, then register a fresh `ActiveNote` (velocity scaled to 0–1,
phase 0, start time = now). -/
def noteOn (F : FloatOps) (midiNote velocity : Nat) (now : ℚ)
    (s : SynthState) : SynthState :=
  { s with
      releasedNotes := ddel s.releasedNotes midiNote
      activeNotes := dset s.activeNotes midiNote
        ⟨midiNote, F.freqOf midiNote, (velocity : ℚ) / 127, now, 0⟩ }

/-- Python `AudioSynthesizer.note_off`: move a sounding pitch to the released set
with release start = now; a pitch that is not sounding is left alone. -/
def noteOff (midiNote : Nat) (now : ℚ) (s : SynthState) : SynthState :=
  match dget s.activeNotes midiNote with
  | none => s
  | some note =>
      { s with
          activeNotes := ddel s.activeNotes midiNote
          releasedNotes := dset s.releasedNotes midiNote (note, now) }

/-- The sample loop of `_generate_note_samples`: `k` samples remain, `i` is
the running sample index, `phase` the oscillator phase.  Once the envelope
amplitude reaches zero the loop breaks, leaving the remaining samples at
zero; otherwise the sample is `sin(phase) * velocity * amplitude` and the
phase advances by `2π · f · dt`, wrapped at `2π`. -/
def genLoop (F : FloatOps) (e : ADSREnvelope) (dt frequency velocity : ℚ)
    (timeSinceStart : ℚ) (noteReleased : Bool) (timeSinceRelease : ℚ) :
    Nat → Nat → ℚ → List ℚ × ℚ
  | 0, _, phase => ([], phase)
  | k + 1, i, phase =>
      let amplitude := e.getAmplitude (timeSinceStart + i * dt) noteReleased
        (if noteReleased then timeSinceRelease + i * dt else 0)
      if amplitude ≤ 0 then (List.replicate (k + 1) 0, phase)
      else
        let sample := F.osc phase * velocity * amplitude
        let phase1 := phase + F.twoPi * frequency * dt
        let phase2 := if F.twoPi ≤ phase1 then phase1 - F.twoPi else phase1
        let rest := genLoop F e dt frequency velocity timeSinceStart
          noteReleased timeSinceRelease k (i + 1) phase2
        (sample :: rest.1, rest.2)

/-- Python `AudioSynthesizer._generate_note_samples`: the generated buffer together
with the note's final phase (the Python code mutates `note.phase` in
place). -/
def generateNoteSamples (F : FloatOps) (e : ADSREnvelope) (sampleRate : ℚ)
    (note : ActiveNote) (numSamples : Nat) (currentTime : ℚ)
    (releaseTime : Option ℚ) : List ℚ × ℚ :=
  let dt := 1 / sampleRate
  let timeSinceStart := currentTime - note.startTime
  let timeSinceRelease :=
    match releaseTime with
    | some rt => currentTime - rt
    | none => 0
  genLoop F e dt note.frequency note.velocity timeSinceStart
    releaseTime.isSome timeSinceRelease numSamples 0 note.phase

/-- numpy `buffer += note_buffer` on equal-length buffers. -/
def addBuffers : List ℚ → List ℚ → List ℚ := List.zipWith (· + ·)

/-- Python `np.clip(x, -1.0, 1.0)` on one sample. -/
def clipSample (x : ℚ) : ℚ := max (-1) (min 1 x)

/-- Per-active-note work inside `generate_audio_buffer`: the updated note
(its phase advanced) and its contribution to the buffer. -/
def noteResultA (F : FloatOps) (e : ADSREnvelope) (sampleRate : ℚ)
    (numSamples : Nat) (currentTime : ℚ) (pn : Nat × ActiveNote) :
    Nat × (ActiveNote × List ℚ) :=
  let r := generateNoteSamples F e sampleRate pn.2 numSamples currentTime none
  (pn.1, ({ pn.2 with phase := r.2 }, r.1))

/-- Per-released-note work inside `generate_audio_buffer`. -/
def noteResultR (F : FloatOps) (e : ADSREnvelope) (sampleRate : ℚ)
    (numSamples : Nat) (currentTime : ℚ) (pn : Nat × (ActiveNote × ℚ)) :
    Nat × ((ActiveNote × ℚ) × List ℚ) :=
  let r := generateNoteSamples F e sampleRate pn.2.1 numSamples currentTime
    (some pn.2.2)
  (pn.1, (({ pn.2.1 with phase := r.2 }, pn.2.2), r.1))

/-- Python `AudioSynthesizer.generate_audio_buffer`: start from a zero buffer of
`numSamples` samples, sum the contribution of every sounding and releasing
note, purge released notes whose release tail has fully decayed
(`time_since_release >= release`), apply the master volume, and hard-clip
to [-1, 1].  Returns the buffer and the updated note collections. -/
def generateAudioBuffer (F : FloatOps) (s : SynthState) (numSamples : Nat)
    (currentTime : ℚ) : List ℚ × SynthState :=
  let activeResults :=
    s.activeNotes.map (noteResultA F s.envelope s.sampleRate numSamples currentTime)
  let releasedResults :=
    s.releasedNotes.map (noteResultR F s.envelope s.sampleRate numSamples currentTime)
  let buffer1 := activeResults.foldl (fun b r => addBuffers b r.2.2)
    (List.replicate numSamples 0)
  let buffer2 := releasedResults.foldl (fun b r => addBuffers b r.2.2) buffer1
  let scaled := (buffer2.map (fun x => x * s.masterVolume)).map clipSample
  (scaled,
    { s with
        activeNotes := activeResults.map (fun r => (r.1, r.2.1))
        releasedNotes := (releasedResults.filter
          (fun r => decide (currentTime - r.2.1.2 < s.envelope.release))).map
          (fun r => (r.1, r.2.1)) })

/-- Python `AudioSynthesizer.stop_all_notes`. -/
def stopAllNotes (s : SynthState) : SynthState :=
  { s with activeNotes := [], releasedNotes := [] }

/-- No pitch is simultaneously a key of the active and the released
collections. -/
def DisjointNotes (s : SynthState) : Prop :=
  ∀ p : Nat, dget s.activeNotes p = none ∨ dget s.releasedNotes p = none

end Synth

namespace Player

/-- Python `PhrasePlayer._calculate_next_downbeat` (session timing set): position in
beats since the session anchor, beats into the current 4-beat measure via
Python float `%` (`x % 4 = x - 4 * ⌊x / 4⌋`), and the wait until the next
measure boundary — zero when already within 0.001 beats of a downbeat. -/
def calculateNextDownbeat (sessionStartTime beatInterval now : ℚ) : ℚ :=
  let elapsedTime := now - sessionStartTime
  let currentBeatPosition := elapsedTime / beatInterval
  let beatsInCurrentMeasure :=
    currentBeatPosition - 4 * ⌊currentBeatPosition / 4⌋
  let beatsUntilNextDownbeat :=
    if beatsInCurrentMeasure < 1/1000 then 0 else 4 - beatsInCurrentMeasure
  now + beatsUntilNextDownbeat * beatInterval

/-- Claim C5 as stated: with anchor `s`, beat interval `b` and current time
`c`, the next-downbeat computation returns `d ≥ c` with `d - s` equal to
`c - s` rounded up to the next multiple of the measure duration `4b`. -/
def DownbeatClaim (s b c : ℚ) : Prop :=
  0 < b → s ≤ c →
    c ≤ calculateNextDownbeat s b c ∧
    calculateNextDownbeat s b c - s = 4 * b * ⌈(c - s) / (4 * b)⌉

end Player

namespace Drums

/-- The tempo field of `DrumEngine` (initialised to 100 in `__init__`). -/
structure DrumEngine where
  bpm : ℤ
deriving DecidableEq, Repr

/-- A fresh `DrumEngine`. -/
def DrumEngine.init : DrumEngine := ⟨100⟩

/-- Python `DrumEngine.set_bpm`: clamp to the range 60–180. -/
def setBpm (e : DrumEngine) (bpm : ℤ) : DrumEngine :=
  { e with bpm := max 60 (min 180 bpm) }

end Drums

end MusicTutor

namespace MusicTutor

section DictLemmas

open Dict

theorem dget_dset_self {κ α : Type} [DecidableEq κ] (d : List (κ × α)) (k : κ) (v : α) :
    dget (dset d k v) k = some v := by
  induction d with
  | nil => simp [dget, dset]
  | cons hd tl ih =>
      obtain ⟨k', v'⟩ := hd
      by_cases h : k' = k
      · simp [dget, dset, h]
      · simp [dget, dset, h, ih]

theorem dget_dset_ne {κ α : Type} [DecidableEq κ] (d : List (κ × α)) (k k' : κ) (v : α)
    (h : k' ≠ k) : dget (dset d k v) k' = dget d k' := by
  have hk' : k ≠ k' := Ne.symm h
  induction d with
  | nil => simp [dget, dset, hk']
  | cons hd tl ih =>
      obtain ⟨k₀, v₀⟩ := hd
      by_cases hk : k₀ = k
      · subst hk
        simp [dget, dset, hk']
      · simp only [dset, if_neg hk]
        by_cases hk₀ : k₀ = k'
        · simp [dget, hk₀]
        · simp [dget, hk₀, ih]

theorem dget_ddel_self {κ α : Type} [DecidableEq κ] (d : List (κ × α)) (k : κ) :
    dget (ddel d k) k = none := by
  induction d with
  | nil => simp [dget, ddel]
  | cons hd tl ih =>
      obtain ⟨k', v'⟩ := hd
      by_cases h : k' = k
      · simp [ddel, h, ih]
      · simp [dget, ddel, h, ih]

theorem dget_ddel_ne {κ α : Type} [DecidableEq κ] (d : List (κ × α)) (k k' : κ)
    (h : k' ≠ k) : dget (ddel d k) k' = dget d k' := by
  have hks : k ≠ k' := Ne.symm h
  induction d with
  | nil => simp [ddel]
  | cons hd tl ih =>
      obtain ⟨k₀, v₀⟩ := hd
      by_cases hk : k₀ = k
      · subst hk
        simp [dget, ddel, hks, ih]
      · by_cases hk₀ : k₀ = k'
        · simp [dget, ddel, hk, hk₀, h]
        · simp [dget, ddel, hk, hk₀, ih]

end DictLemmas

/-- Claim C1 (retrigger): in any `NoteProcessor` state where pitch `p` has an
open note `(v1, t1)` and the session start `s0` is established, processing a
second note-on for `p` with nonzero velocity `v2` at time `t2` appends exactly
one completed record for `p` — velocity `v1`, start `t1 - s0` relative to
session start, duration `t2 - t1` — returns that record, and leaves the new
note-on `(v2, t2)` as the single open note for `p`, all other pitches
untouched. -/
theorem noteProcessor_retrigger (st : NoteProc.State) (p v1 v2 : Nat) (t1 t2 s0 : ℚ)
    (hopen : Dict.dget st.activeNotes p = some (v1, t1))
    (hsess : st.sessionStartTime = some s0)
    (hv : v2 ≠ 0) :
    (NoteProc.processMidiEvent [0x90, p, v2] t2 st).1 =
        some ⟨p, v1, t1 - s0, some (t2 - t1)⟩ ∧
    (NoteProc.processMidiEvent [0x90, p, v2] t2 st).2.completedNotes =
        st.completedNotes ++ [⟨p, v1, t1 - s0, some (t2 - t1)⟩] ∧
    Dict.dget (NoteProc.processMidiEvent [0x90, p, v2] t2 st).2.activeNotes p =
        some (v2, t2) ∧
    (∀ q, q ≠ p →
      Dict.dget (NoteProc.processMidiEvent [0x90, p, v2] t2 st).2.activeNotes q =
        Dict.dget st.activeNotes q) := by
  simp only [NoteProc.processMidiEvent, hsess]
  norm_num
  simp only [NoteProc.handleNoteOn, hopen, hsess, if_neg hv]
  refine ⟨rfl, rfl, ?_, ?_⟩
  · exact dget_dset_self _ _ _
  · intro q hq
    exact dget_dset_ne _ _ _ _ hq

/-- Witness for C1: a concrete retrigger — pitch 60 open with velocity 100
since time 2 in a session started at time 1 — processed with a second
note-on of velocity 90 at time 5. -/
theorem noteProcessor_retrigger_witness :
    (NoteProc.processMidiEvent [0x90, 60, 90] 5
        ⟨[(60, (100, 2))], [], some 1⟩).1 = some ⟨60, 100, 1, some 3⟩ ∧
    (NoteProc.processMidiEvent [0x90, 60, 90] 5
        ⟨[(60, (100, 2))], [], some 1⟩).2.completedNotes =
      [⟨60, 100, 1, some 3⟩] ∧
    Dict.dget (NoteProc.processMidiEvent [0x90, 60, 90] 5
        ⟨[(60, (100, 2))], [], some 1⟩).2.activeNotes 60 = some (90, 5) := by
  have h := noteProcessor_retrigger ⟨[(60, (100, 2))], [], some 1⟩ 60 100 90 2 5 1
    (by decide) rfl (by decide)
  have h1 := h.1
  have h2 := h.2.1
  have h3 := h.2.2.1
  norm_num at h1 h2 h3 ⊢
  exact ⟨h1, h2, h3⟩

/-- An `Except`-returning constructor ran without raising. -/
def succeeds {α : Type} : Except String α → Prop
  | .ok _ => True
  | .error _ => False

/-- Claim C7: `MusicalNote` construction succeeds exactly when the pitch and
velocity are in 0–127, the start offset is nonnegative and the duration
positive; `Phrase` construction succeeds exactly when the (defaulted)
metadata has difficulty in 1–5, bar count in {1, 2, 4} and tempo > 0. -/
theorem construction_validation (p : ℤ) (s d : ℚ) (v : ℤ)
    (notes : List Music.MusicalNote) (md : Music.MetadataInput) :
    (succeeds (Music.mkMusicalNote p s d v) ↔
      (0 ≤ p ∧ p ≤ 127 ∧ 0 ≤ v ∧ v ≤ 127 ∧ 0 ≤ s ∧ 0 < d)) ∧
    (succeeds (Music.mkPhrase notes md) ↔
      (1 ≤ md.difficulty.getD 2 ∧ md.difficulty.getD 2 ≤ 5 ∧
       (md.bars.getD 2 = 1 ∨ md.bars.getD 2 = 2 ∨ md.bars.getD 2 = 4) ∧
       0 < md.tempo.getD 120)) := by
  constructor
  · simp only [Music.mkMusicalNote]
    split_ifs with h1 h2 h3 h4
    · simp only [succeeds, false_iff]
      exact fun h => absurd h.2.2.2.2.1 (not_le.mpr h3)
    · simp only [succeeds, false_iff]
      exact fun h => absurd h.2.2.2.2.2 (not_lt.mpr h4)
    · simp only [succeeds, true_iff]
      exact ⟨h1.1, h1.2, h2.1, h2.2, not_lt.mp h3, not_le.mp h4⟩
    · simp only [succeeds, false_iff]
      exact fun h => h2 ⟨h.2.2.1, h.2.2.2.1⟩
    · simp only [succeeds, false_iff]
      exact fun h => h1 ⟨h.1, h.2.1⟩
  · simp only [Music.mkPhrase, Music.validateMetadata]
    split_ifs with h1 h2 h3
    · simp only [succeeds, false_iff]
      exact fun h => absurd h.2.2.2 (not_lt.mpr h3)
    · simp only [succeeds, true_iff]
      exact ⟨h1.1, h1.2, h2, not_le.mp h3⟩
    · simp only [succeeds, false_iff]
      exact fun h => h2 h.2.2.1
    · simp only [succeeds, false_iff]
      exact fun h => h1 ⟨h.1, h.2.1⟩

/-- Claim C2 (code bug): converting a response recording that contains a
still-open note-on (pitch 60, velocity 80, 6 s into the window, session at
120 bpm) returns `None` — every note of the response, including the open
note that should have received the 0.5-beat fallback duration, is dropped —
even though that fallback note itself is perfectly valid.  The phrase spans
12.5 beats, so `bars = min(max(1, int(12.5 / 4)), 4) = 3`, which
`Phrase._validate_metadata` rejects (`bars ∈ {1, 2, 4}`), and the
`ValueError` is swallowed into `None`. -/
theorem convertRecording_drops_valid_open_note :
    Recording.convertMidiRecordingToPhrase [Recording.RecEvent.on 60 80 6] 120 =
      none ∧
    Music.mkMusicalNote 60 (6 * (120 / 60)) (1/2) 80 =
      .ok ⟨60, 12, 1/2, 80⟩ := by
  have hfloor : (⌊((6 : ℚ) * (120 / 60) + 1 / 2) / 4⌋ : ℤ) = 3 := by
    rw [Int.floor_eq_iff]
    norm_num
  constructor
  · norm_num [Recording.convertMidiRecordingToPhrase, Recording.pairEvents,
      Dict.dset, Dict.dget, Recording.finalizeOpenNotes, Music.mkMusicalNote,
      Recording.phraseDurationBeats, Music.mkPhrase, Music.validateMetadata,
      hfloor]
  · norm_num [Music.mkMusicalNote]

/-- Claim C9: `DrumEngine.set_bpm` stores `max(60, min(180, bpm))`, so the
drum tempo is always within 60–180 — and any session tempo outside that
range is silently changed (the stored value equals the request exactly when
the request already lies in 60–180); the engine also starts in range. -/
theorem drumEngine_bpm_clamped (e : Drums.DrumEngine) (bpm : ℤ) :
    (Drums.setBpm e bpm).bpm = max 60 (min 180 bpm) ∧
    60 ≤ (Drums.setBpm e bpm).bpm ∧ (Drums.setBpm e bpm).bpm ≤ 180 ∧
    ((Drums.setBpm e bpm).bpm = bpm ↔ (60 ≤ bpm ∧ bpm ≤ 180)) ∧
    60 ≤ Drums.DrumEngine.init.bpm ∧ Drums.DrumEngine.init.bpm ≤ 180 := by
  refine ⟨rfl, le_max_left _ _, max_le (by norm_num) (min_le_left _ _), ?_,
    by decide, by decide⟩
  simp only [Drums.setBpm]
  omega

theorem genLoop_length (F : Synth.FloatOps) (e : Synth.ADSREnvelope)
    (dt f v tss : ℚ) (nr : Bool) (tsr : ℚ) :
    ∀ (k i : Nat) (phase : ℚ),
      (Synth.genLoop F e dt f v tss nr tsr k i phase).1.length = k := by
  intro k
  induction k with
  | zero => intro i phase; rfl
  | succ n ih =>
      intro i phase
      simp only [Synth.genLoop]
      by_cases hamp : Synth.ADSREnvelope.getAmplitude e (tss + (i : ℚ) * dt) nr
          (if nr = true then tsr + (i : ℚ) * dt else 0) ≤ 0
      · rw [if_pos hamp]
        simp
      · rw [if_neg hamp]
        simp [ih]

theorem generateNoteSamples_length (F : Synth.FloatOps) (e : Synth.ADSREnvelope)
    (sr : ℚ) (note : Synth.ActiveNote) (n : Nat) (t : ℚ) (rt : Option ℚ) :
    (Synth.generateNoteSamples F e sr note n t rt).1.length = n := by
  simp only [Synth.generateNoteSamples]
  exact genLoop_length F e _ _ _ _ _ _ n 0 note.phase

theorem foldl_addBuffers_length {γ : Type} (bufOf : γ → List ℚ) (n : Nat) :
    ∀ (l : List γ), (∀ x ∈ l, (bufOf x).length = n) →
      ∀ b : List ℚ, b.length = n →
        (l.foldl (fun acc x => Synth.addBuffers acc (bufOf x)) b).length = n := by
  intro l
  induction l with
  | nil => intro _ b hb; exact hb
  | cons hd tl ih =>
      intro hl b hb
      simp only [List.foldl_cons]
      apply ih (fun x hx => hl x (List.mem_cons_of_mem _ hx))
      rw [Synth.addBuffers, List.length_zipWith, hb,
        hl hd (List.mem_cons_self _ _)]
      exact min_self n

theorem clipSample_bounds (y : ℚ) :
    -1 ≤ Synth.clipSample y ∧ Synth.clipSample y ≤ 1 :=
  ⟨le_max_left _ _, max_le (by norm_num) (min_le_left _ _)⟩

/-- Claim C6: for every frame count and every synthesizer state — any
collection of sounding and releasing notes, any oscillator behaviour —
`generate_audio_buffer` returns exactly `numSamples` samples, every one of
which lies in [-1, 1] after master-gain scaling and hard clipping. -/
theorem synth_generate_bounded (F : Synth.FloatOps) (s : Synth.SynthState)
    (numSamples : Nat) (currentTime : ℚ) :
    (Synth.generateAudioBuffer F s numSamples currentTime).1.length =
      numSamples ∧
    ∀ x ∈ (Synth.generateAudioBuffer F s numSamples currentTime).1,
      -1 ≤ x ∧ x ≤ 1 := by
  constructor
  · simp only [Synth.generateAudioBuffer, List.length_map]
    apply foldl_addBuffers_length
      (fun r : Nat × ((Synth.ActiveNote × ℚ) × List ℚ) => r.2.2) numSamples
    · intro x hx
      obtain ⟨pn, -, rfl⟩ := List.mem_map.mp hx
      exact generateNoteSamples_length _ _ _ _ _ _ _
    · apply foldl_addBuffers_length
        (fun r : Nat × (Synth.ActiveNote × List ℚ) => r.2.2) numSamples
      · intro x hx
        obtain ⟨pn, -, rfl⟩ := List.mem_map.mp hx
        exact generateNoteSamples_length _ _ _ _ _ _ _
      · exact List.length_replicate _ _
  · intro x hx
    simp only [Synth.generateAudioBuffer] at hx
    obtain ⟨y, -, rfl⟩ := List.mem_map.mp hx
    exact clipSample_bounds y

/-- Claim C8: `note_off` on a pitch that is not currently sounding leaves the
synthesizer state — both note collections — unchanged, so any subsequent
`generate_audio_buffer` call returns exactly what it would have returned
without the `note_off`. -/
theorem noteOff_notSounding_noop (s : Synth.SynthState) (p : Nat) (t : ℚ)
    (h : Dict.dget s.activeNotes p = none) :
    Synth.noteOff p t s = s ∧
    ∀ (F : Synth.FloatOps) (n : Nat) (t' : ℚ),
      Synth.generateAudioBuffer F (Synth.noteOff p t s) n t' =
        Synth.generateAudioBuffer F s n t' := by
  have he : Synth.noteOff p t s = s := by
    simp only [Synth.noteOff, h]
  exact ⟨he, fun F n t' => by rw [he]⟩

/-- Witness for C8: pitch 60 is not sounding (only 61 is), so `note_off(60)`
is an identity and the next buffer is unchanged. -/
theorem noteOff_notSounding_noop_witness :
    Synth.noteOff 60 5
        ⟨[(61, ⟨61, 440, 1/2, 0, 0⟩)], [], ⟨1/100, 1/10, 7/10, 3/10⟩,
          3/10, 44100⟩ =
      ⟨[(61, ⟨61, 440, 1/2, 0, 0⟩)], [], ⟨1/100, 1/10, 7/10, 3/10⟩,
        3/10, 44100⟩ ∧
    Synth.generateAudioBuffer ⟨fun _ => 0, 0, fun _ => 0⟩
        (Synth.noteOff 60 5
          ⟨[(61, ⟨61, 440, 1/2, 0, 0⟩)], [], ⟨1/100, 1/10, 7/10, 3/10⟩,
            3/10, 44100⟩) 4 7 =
      Synth.generateAudioBuffer ⟨fun _ => 0, 0, fun _ => 0⟩
        ⟨[(61, ⟨61, 440, 1/2, 0, 0⟩)], [], ⟨1/100, 1/10, 7/10, 3/10⟩,
          3/10, 44100⟩ 4 7 := by
  have h := noteOff_notSounding_noop
    ⟨[(61, ⟨61, 440, 1/2, 0, 0⟩)], [], ⟨1/100, 1/10, 7/10, 3/10⟩,
      3/10, 44100⟩ 60 5 rfl
  exact ⟨h.1, h.2 ⟨fun _ => 0, 0, fun _ => 0⟩ 4 7⟩

theorem dget_map_keyPreserving {κ α β : Type} [DecidableEq κ]
    (l : List (κ × α)) (g : κ × α → κ × β) (hg : ∀ pn, (g pn).1 = pn.1)
    (k : κ) :
    Dict.dget (l.map g) k = none ↔ Dict.dget l k = none := by
  induction l with
  | nil => simp [Dict.dget]
  | cons hd tl ih =>
      simp only [List.map_cons, Dict.dget]
      rw [hg hd]
      by_cases hk : hd.1 = k
      · simp [hk]
      · simp [hk, ih]

theorem dget_filter_none {κ α : Type} [DecidableEq κ] (l : List (κ × α))
    (P : κ × α → Bool) (k : κ) (h : Dict.dget l k = none) :
    Dict.dget (l.filter P) k = none := by
  induction l with
  | nil => simp [List.filter_nil, Dict.dget]
  | cons hd tl ih =>
      simp only [Dict.dget] at h
      by_cases hk : hd.1 = k
      · simp [hk] at h
      · simp only [hk, if_false] at h
        rw [List.filter_cons]
        split
        · simp only [Dict.dget, hk, if_false]
          exact ih h
        · exact ih h

/-- Claim C10: disjointness of the active and released key sets is preserved
by `note_on`, `note_off`, `generate_audio_buffer` (which only updates phases
and purges decayed released notes) and `stop_all_notes`. -/
theorem synth_disjoint_preserved (F : Synth.FloatOps) (s : Synth.SynthState)
    (p v : Nat) (now : ℚ) (n : Nat) (t : ℚ)
    (h : Synth.DisjointNotes s) :
    Synth.DisjointNotes (Synth.noteOn F p v now s) ∧
    Synth.DisjointNotes (Synth.noteOff p now s) ∧
    Synth.DisjointNotes (Synth.generateAudioBuffer F s n t).2 ∧
    Synth.DisjointNotes (Synth.stopAllNotes s) := by
  refine ⟨?_, ?_, ?_, ?_⟩
  · intro q
    by_cases hq : q = p
    · subst hq
      right
      exact dget_ddel_self _ _
    · rcases h q with ha | hr
      · left
        simpa only [Synth.noteOn] using (dget_dset_ne s.activeNotes p q _ hq).trans ha
      · right
        simpa only [Synth.noteOn] using (dget_ddel_ne s.releasedNotes p q hq).trans hr
  · cases hc : Dict.dget s.activeNotes p with
    | none =>
        simp only [Synth.noteOff, hc]
        exact h
    | some note =>
        intro q
        simp only [Synth.noteOff, hc]
        by_cases hq : q = p
        · subst hq
          left
          exact dget_ddel_self _ _
        · rcases h q with ha | hr
          · left
            exact (dget_ddel_ne s.activeNotes p q hq).trans ha
          · right
            exact (dget_dset_ne s.releasedNotes p q _ hq).trans hr
  · intro q
    simp only [Synth.generateAudioBuffer]
    rcases h q with ha | hr
    · left
      apply (dget_map_keyPreserving _
        (fun r : Nat × (Synth.ActiveNote × List ℚ) => (r.1, r.2.1))
        (fun r => rfl) q).mpr
      exact (dget_map_keyPreserving _
        (Synth.noteResultA F s.envelope s.sampleRate n t) (fun pn => rfl) q).mpr ha
    · right
      apply (dget_map_keyPreserving _
        (fun r : Nat × ((Synth.ActiveNote × ℚ) × List ℚ) => (r.1, r.2.1))
        (fun r => rfl) q).mpr
      apply dget_filter_none
      exact (dget_map_keyPreserving _
        (Synth.noteResultR F s.envelope s.sampleRate n t) (fun pn => rfl) q).mpr hr
  · intro q
    left
    rfl

/-- Witness for C10: a concrete disjoint state — pitch 61 sounding, pitch 62
releasing — remains disjoint under all four operations. -/
theorem synth_disjoint_preserved_witness :
    Synth.DisjointNotes (Synth.noteOn ⟨fun _ => 0, 0, fun _ => 0⟩ 60 100 3
      ⟨[(61, ⟨61, 440, 1/2, 0, 0⟩)], [(62, (⟨62, 440, 1/2, 0, 0⟩, 2))],
        ⟨1/100, 1/10, 7/10, 3/10⟩, 3/10, 44100⟩) ∧
    Synth.DisjointNotes (Synth.noteOff 60 3
      ⟨[(61, ⟨61, 440, 1/2, 0, 0⟩)], [(62, (⟨62, 440, 1/2, 0, 0⟩, 2))],
        ⟨1/100, 1/10, 7/10, 3/10⟩, 3/10, 44100⟩) ∧
    Synth.DisjointNotes (Synth.generateAudioBuffer ⟨fun _ => 0, 0, fun _ => 0⟩
      ⟨[(61, ⟨61, 440, 1/2, 0, 0⟩)], [(62, (⟨62, 440, 1/2, 0, 0⟩, 2))],
        ⟨1/100, 1/10, 7/10, 3/10⟩, 3/10, 44100⟩ 4 3).2 ∧
    Synth.DisjointNotes (Synth.stopAllNotes
      ⟨[(61, ⟨61, 440, 1/2, 0, 0⟩)], [(62, (⟨62, 440, 1/2, 0, 0⟩, 2))],
        ⟨1/100, 1/10, 7/10, 3/10⟩, 3/10, 44100⟩) := by
  apply synth_disjoint_preserved
  intro q
  by_cases h61 : q = 61
  · subst h61
    right
    rfl
  · left
    show Dict.dget [(61, _)] q = none
    simp [Dict.dget, Ne.symm h61]

theorem clearsPhrase_false_iff (r : Option Session.Recommendation) :
    Session.clearsPhrase r = false ↔ Session.goodRec r := by
  cases r with
  | none => simp [Session.clearsPhrase, Session.goodRec]
  | some x => cases x <;> simp [Session.clearsPhrase, Session.goodRec]

theorem enterPlayback_st (m : Session.MState) (sel : Option Nat) :
    (Session.enterPlayback m sel).st = .playback := by
  simp only [Session.enterPlayback]
  split <;> rfl

theorem enterPlayback_sessionActive (m : Session.MState) (sel : Option Nat) :
    (Session.enterPlayback m sel).sessionActive = m.sessionActive := by
  simp only [Session.enterPlayback]
  split <;> rfl

theorem enterPlayback_pendingListen (m : Session.MState) (sel : Option Nat) :
    (Session.enterPlayback m sel).pendingListen = m.pendingListen := by
  simp only [Session.enterPlayback]
  split <;> rfl

theorem enterPlayback_pendingRec (m : Session.MState) (sel : Option Nat) :
    (Session.enterPlayback m sel).pendingRec = m.pendingRec := by
  simp only [Session.enterPlayback]
  split <;> rfl

theorem enterPlayback_pendingEvalRun (m : Session.MState) (sel : Option Nat) :
    (Session.enterPlayback m sel).pendingEvalRun = m.pendingEvalRun := by
  simp only [Session.enterPlayback]
  split <;> rfl

theorem enterPlayback_pendingEvalDone (m : Session.MState) (sel : Option Nat) :
    (Session.enterPlayback m sel).pendingEvalDone = m.pendingEvalDone := by
  simp only [Session.enterPlayback]
  split <;> rfl

theorem enterPlayback_goodRec (m : Session.MState) (sel : Option Nat) :
    Session.goodRec (Session.enterPlayback m sel).lastRec := by
  simp only [Session.enterPlayback]
  split
  · left
    rfl
  · rename_i hcond
    push_neg at hcond
    exact (clearsPhrase_false_iff m.lastRec).mp
      (Bool.not_eq_true _ ▸ hcond.1)

theorem enterPlayback_phrase_keep (m : Session.MState) (sel : Option Nat)
    (hgood : Session.goodRec m.lastRec) (p : Nat) (hp : m.phrase = some p) :
    (Session.enterPlayback m sel).phrase = some p := by
  simp only [Session.enterPlayback]
  rw [if_neg]
  · exact hp
  · rintro (hc | hc)
    · rw [(clearsPhrase_false_iff m.lastRec).mpr hgood] at hc
      exact Bool.false_ne_true hc
    · rw [hp] at hc
      exact Option.some_ne_none p hc

theorem inv_enterPlayback (m : Session.MState) (sel : Option Nat)
    (hact : m.sessionActive = true)
    (hlis : m.pendingListen = 0) (hrec : m.pendingRec = 0)
    (heval : m.pendingEvalRun + m.pendingEvalDone = 0) :
    Session.Inv (Session.enterPlayback m sel) := by
  refine ⟨?_, ?_, ?_, ?_, ?_⟩
  · rw [enterPlayback_sessionActive, enterPlayback_st, hact]
    simp
  · rw [enterPlayback_pendingListen, enterPlayback_st, hlis]
    simp
  · rw [enterPlayback_pendingRec, enterPlayback_st, hrec]
    simp
  · rw [enterPlayback_pendingEvalRun, enterPlayback_pendingEvalDone,
      enterPlayback_st]
    simpa using heval
  · intro _
    exact enterPlayback_goodRec m sel

theorem step_preserves_inv (m : Session.MState) (a : Session.Act)
    (m' : Session.MState) (hinv : Session.Inv m)
    (hstep : Session.Step m a m') (hns : a ≠ .stop) : Session.Inv m' := by
  obtain ⟨hact, hlis, hrec, heval, hgood⟩ := hinv
  cases hstep with
  | start sel h =>
      have hidle : m.st = .idle := by
        by_contra hne
        rw [hact.mpr hne] at h
        exact Bool.noConfusion h
      rw [hidle] at hlis hrec heval
      simp at hlis hrec heval
      exact inv_enterPlayback _ sel rfl hlis hrec
        (by simp [heval.1, heval.2])
  | stop h => exact absurd rfl hns
  | phraseFinished ha hs =>
      rw [hs] at hlis hrec heval
      simp at hlis hrec heval
      refine ⟨by simp [ha], by simp [hlis], by simp [hrec],
        by simp [heval.1, heval.2], fun _ => hgood (Or.inl hs)⟩
  | listenTimeout sel k h ha =>
      have hst : m.st = .listening := by
        by_contra hne
        rw [hlis, if_neg hne] at h
        exact Nat.noConfusion h
      rw [hst] at hlis hrec heval
      simp at hlis hrec heval
      have hk : k = 0 := by omega
      subst hk
      exact inv_enterPlayback _ sel ha rfl hrec
        (by simp [heval.1, heval.2])
  | listenTimeoutInactive sel k h ha =>
      have hidle : m.st = .idle := by
        by_contra hne
        rw [hact.mpr hne] at ha
        exact Bool.noConfusion ha
      rw [hidle] at hlis
      simp at hlis
      omega
  | listenInput k h ha hs =>
      rw [hs] at hlis hrec heval
      simp at hlis hrec heval
      have hk : k = 0 := by omega
      subst hk
      refine ⟨by simp [ha], by simp, by simp [hrec],
        by simp [heval.1, heval.2], fun _ => hgood (Or.inr (Or.inl hs))⟩
  | recTimerFire k h ha =>
      have hst : m.st = .recording := by
        by_contra hne
        rw [hrec, if_neg hne] at h
        exact Nat.noConfusion h
      rw [hst] at hlis hrec heval
      simp at hlis hrec heval
      have hk : k = 0 := by omega
      subst hk
      refine ⟨by simp [ha], by simp [hlis], by simp,
        by simp [heval.1, heval.2], ?_⟩
      intro hc
      simp at hc
  | recTimerFireInactive k h ha =>
      have hidle : m.st = .idle := by
        by_contra hne
        rw [hact.mpr hne] at ha
        exact Bool.noConfusion ha
      rw [hidle] at hrec
      simp at hrec
      omega
  | evalReturn r k h =>
      have hst : m.st = .feedback := by
        by_contra hne
        rw [if_neg hne] at heval
        omega
      rw [hst] at hlis hrec heval
      simp at hlis hrec heval
      refine ⟨hact, by simp [hst, hlis], by simp [hst, hrec], ?_, ?_⟩
      · simp [hst]
        omega
      · intro hc
        simp [hst] at hc
  | evalPause sel k h ha =>
      have hst : m.st = .feedback := by
        by_contra hne
        rw [if_neg hne] at heval
        omega
      rw [hst] at hlis hrec heval
      simp at hlis hrec heval
      refine inv_enterPlayback _ sel ha hlis hrec ?_
      simp
      omega
  | evalPauseInactive sel k h ha =>
      have hidle : m.st = .idle := by
        by_contra hne
        rw [hact.mpr hne] at ha
        exact Bool.noConfusion ha
      rw [hidle] at heval
      simp at heval
      omega
theorem reachableNoStop_inv (m : Session.MState)
    (h : Session.ReachableNoStop m) : Session.Inv m := by
  induction h with
  | init => exact ⟨by decide, rfl, rfl, rfl, fun hc => absurd hc (by decide)⟩
  | step m a m' _ hs hns ih => exact step_preserves_inv m a m' ih hs hns

/-- Counterexample for C3: the claim as stated is false.  A recording timer
from a stopped session survives `stop_session` (its worker only re-checks
`session_active`), so after stop and an immediate restart the stale timer
fires while the new session is in `PLAYBACK` and moves it straight to
`FEEDBACK` — `FEEDBACK` is entered from `PLAYBACK`, not from
`RECORDING_RESPONSE`.  The violating trace is `start, phraseFinished,
listenInput, stop, start, recTimerFire`. -/
theorem session_claim_counterexample : ¬ Session.SessionSafetyClaim := by
  intro hclaim
  have hr1 : Session.Reachable
      (⟨.playback, true, some 0, none, 0, 0, 0, 0⟩ : Session.MState) :=
    Session.Reachable.step _ (.start (some 0)) _ Session.Reachable.init
      (Session.Step.start Session.MState.init (some 0) rfl)
  have hr2 : Session.Reachable
      (⟨.listening, true, some 0, none, 1, 0, 0, 0⟩ : Session.MState) :=
    Session.Reachable.step _ .phraseFinished _ hr1
      (Session.Step.phraseFinished _ rfl rfl)
  have hr3 : Session.Reachable
      (⟨.recording, true, some 0, none, 0, 1, 0, 0⟩ : Session.MState) :=
    Session.Reachable.step _ .listenInput _ hr2
      (Session.Step.listenInput _ 0 rfl rfl rfl)
  have hr4 : Session.Reachable
      (⟨.idle, false, some 0, none, 0, 1, 0, 0⟩ : Session.MState) :=
    Session.Reachable.step _ .stop _ hr3 (Session.Step.stop _ rfl)
  have hr5 : Session.Reachable
      (⟨.playback, true, some 0, none, 0, 1, 0, 0⟩ : Session.MState) :=
    Session.Reachable.step _ (.start (some 1)) _ hr4
      (Session.Step.start _ (some 1) rfl)
  have hbad := hclaim.2 ⟨.playback, true, some 0, none, 0, 1, 0, 0⟩
    .recTimerFire ⟨.feedback, true, some 0, none, 0, 0, 1, 0⟩ hr5
    (Session.Step.recTimerFire _ 0 rfl rfl) (by decide) rfl
  exact absurd hbad (by decide)

/-- Claim C3 amended: in every execution that never stops (and hence never
restarts) the session, a listening timeout enters `PLAYBACK` with the
current phrase unchanged, and `FEEDBACK` is only ever entered from
`RECORDING_RESPONSE`.  (With stop/restart, stale daemon workers of the dead
session violate both parts — see the counterexample.) -/
theorem session_safety_single_run :
    (∀ (m : Session.MState) (sel : Option Nat) (m' : Session.MState) (p : Nat),
        Session.ReachableNoStop m → m.st = .listening → m.phrase = some p →
        Session.Step m (.listenTimeout sel) m' →
        m'.st = .playback ∧ m'.phrase = some p) ∧
    (∀ (m : Session.MState) (a : Session.Act) (m' : Session.MState),
        Session.ReachableNoStop m → Session.Step m a m' →
        m.st ≠ .feedback → m'.st = .feedback → m.st = .recording) := by
  constructor
  · intro m sel m' p hre hst hp hstep
    have hinv := reachableNoStop_inv m hre
    cases hstep with
    | listenTimeout =>
        refine ⟨enterPlayback_st _ _, enterPlayback_phrase_keep _ _ ?_ p hp⟩
        exact hinv.2.2.2.2 (Or.inr (Or.inl hst))
    | listenTimeoutInactive =>
        rename_i ha
        have hT := hinv.1.mpr (by rw [hst]; decide)
        rw [hT] at ha
        exact Bool.noConfusion ha
  · intro m a m' hre hstep hnf hf
    have hinv := reachableNoStop_inv m hre
    cases hstep with
    | start sel h =>
        rw [enterPlayback_st] at hf
        exact Session.SState.noConfusion hf
    | stop h => exact Session.SState.noConfusion hf
    | phraseFinished ha hs => exact Session.SState.noConfusion hf
    | listenTimeout sel k h ha =>
        rw [enterPlayback_st] at hf
        exact Session.SState.noConfusion hf
    | listenTimeoutInactive sel k h ha => exact absurd hf hnf
    | listenInput k h ha hs => exact Session.SState.noConfusion hf
    | recTimerFire k h ha =>
        by_contra hne
        rw [hinv.2.2.1] at h
        simp [hne] at h
    | recTimerFireInactive k h ha => exact absurd hf hnf
    | evalReturn r k h => exact absurd hf hnf
    | evalPause sel k h ha =>
        rw [enterPlayback_st] at hf
        exact Session.SState.noConfusion hf
    | evalPauseInactive sel k h ha => exact absurd hf hnf

/-- Claim C4: whenever the external evaluator call raises an exception or
returns `None`, `_evaluate_with_claude` produces exactly the (non-null)
fallback evaluation; the fallback grade is a deterministic function of only
the two phrases' note counts; and the feedback worker's final lock-protected
block always moves an active session to `PLAYBACK`, so an evaluator failure
never stalls or terminates the cycle. -/
theorem evaluator_fallback
    (outcome : Except String (Option Eval.ClaudeEvaluation)) (err : String)
    (t s : Music.Phrase) (hfail : outcome = .ok none ∨ outcome = .error err) :
    Eval.evaluateWithClaude outcome t s = Eval.getFallbackEvaluation t s ∧
    (Eval.getFallbackEvaluation t s).grade =
      Eval.fallbackGradeOfCounts t.notes.length s.notes.length ∧
    (∀ (t2 s2 : Music.Phrase), t2.notes.length = t.notes.length →
      s2.notes.length = s.notes.length →
      (Eval.getFallbackEvaluation t2 s2).grade =
        (Eval.getFallbackEvaluation t s).grade) ∧
    (∀ (m m' : Session.MState) (sel : Option Nat),
      Session.Step m (.evalPause sel) m' → m.sessionActive = true →
      m'.st = .playback) := by
  have key : ∀ (a b : Music.Phrase),
      (Eval.getFallbackEvaluation a b).grade =
        Eval.fallbackGradeOfCounts a.notes.length b.notes.length := by
    intro a b
    simp only [Eval.getFallbackEvaluation, Eval.fallbackGradeOfCounts]
    split_ifs <;> rfl
  refine ⟨?_, key t s, ?_, ?_⟩
  · rcases hfail with hf | hf <;> rw [hf] <;> rfl
  · intro t2 s2 h1 h2
    rw [key t2 s2, key t s, h1, h2]
  · intro m m' sel hstep hact
    cases hstep with
    | evalPause => exact enterPlayback_st _ _
    | evalPauseInactive =>
        rename_i ha
        rw [hact] at ha
        exact Bool.noConfusion ha

/-- Witness for C4: the evaluator returns `None` for two empty phrases; the
result is the fallback, its grade matches the count-based grade, and a
concrete `FEEDBACK` state with its evaluation pause pending moves to
`PLAYBACK`. -/
theorem evaluator_fallback_witness :
    Eval.evaluateWithClaude (.ok none) ⟨[], 1, 1, 120⟩ ⟨[], 1, 1, 120⟩ =
      Eval.getFallbackEvaluation ⟨[], 1, 1, 120⟩ ⟨[], 1, 1, 120⟩ ∧
    (Eval.getFallbackEvaluation ⟨[], 1, 1, 120⟩ ⟨[], 1, 1, 120⟩).grade =
      Eval.fallbackGradeOfCounts 0 0 ∧
    (Session.enterPlayback
        { (⟨.feedback, true, some 0, none, 0, 0, 0, 1⟩ : Session.MState) with
            pendingEvalDone := 0 } none).st = Session.SState.playback := by
  have h := evaluator_fallback (.ok none) "" ⟨[], 1, 1, 120⟩ ⟨[], 1, 1, 120⟩
    (Or.inl rfl)
  exact ⟨h.1, h.2.1, h.2.2.2 ⟨.feedback, true, some 0, none, 0, 0, 0, 1⟩ _
    none (Session.Step.evalPause _ none 0 rfl rfl) rfl⟩

/-- Counterexample for C5: the claim as stated is false.  With anchor 0,
beat interval 1 and current time 0.0005 (inside the 0.001-beat tolerance
band just after a downbeat), `_calculate_next_downbeat` returns the current
time 0.0005 itself, whereas rounding the elapsed time up to the next
multiple of the 4-beat measure gives 4. -/
theorem downbeat_claim_counterexample : ¬ Player.DownbeatClaim 0 1 (1/2000) := by
  intro h
  obtain ⟨-, h2⟩ := h one_pos (by norm_num)
  have hfl : (⌊((1/2000 : ℚ) - 0) / 1 / 4⌋ : ℤ) = 0 := by
    rw [Int.floor_eq_iff]; norm_num
  have hcalc : Player.calculateNextDownbeat 0 1 (1/2000) = 1/2000 := by
    simp only [Player.calculateNextDownbeat, hfl]
    norm_num
  rw [hcalc] at h2
  have hcl : (⌈((1/2000 : ℚ) - 0) / (4 * 1)⌉ : ℤ) = 1 := by
    rw [Int.ceil_eq_iff]; norm_num
  rw [hcl] at h2
  norm_num at h2

/-- Claim C5 amended: with a positive beat interval, the next-downbeat
computation returns `d ≥ c` always; when the elapsed position is within
0.001 beats past a measure boundary it returns the current time `c` itself
(playing immediately on the boundary it just passed), and otherwise `d - s`
is exactly `c - s` rounded up to the next multiple of the 4-beat measure
duration `4b`. -/
theorem downbeat_alignment (s b c : ℚ) (hb : 0 < b) :
    c ≤ Player.calculateNextDownbeat s b c ∧
    ((c - s) / b - 4 * ⌊(c - s) / b / 4⌋ < 1/1000 →
      Player.calculateNextDownbeat s b c = c) ∧
    (1/1000 ≤ (c - s) / b - 4 * ⌊(c - s) / b / 4⌋ →
      Player.calculateNextDownbeat s b c - s = 4 * b * ⌈(c - s) / (4 * b)⌉) := by
  have hnz : b ≠ 0 := ne_of_gt hb
  have hfr0 : (0 : ℚ) ≤ (c - s) / b - 4 * ⌊(c - s) / b / 4⌋ := by
    have h1 : ((⌊(c - s) / b / 4⌋ : ℤ) : ℚ) ≤ (c - s) / b / 4 := Int.floor_le _
    linarith
  have hfr4 : (c - s) / b - 4 * ⌊(c - s) / b / 4⌋ < 4 := by
    have h1 : (c - s) / b / 4 < (⌊(c - s) / b / 4⌋ : ℤ) + 1 :=
      Int.lt_floor_add_one _
    push_cast at h1
    linarith
  have hd : Player.calculateNextDownbeat s b c =
      if (c - s) / b - 4 * ⌊(c - s) / b / 4⌋ < 1/1000 then c
      else c + (4 - ((c - s) / b - 4 * ⌊(c - s) / b / 4⌋)) * b := by
    simp only [Player.calculateNextDownbeat]
    split_ifs with h
    · ring
    · ring
  refine ⟨?_, ?_, ?_⟩
  · rw [hd]
    split_ifs with h
    · exact le_refl c
    · have hnn : 0 ≤ (4 - ((c - s) / b - 4 * ⌊(c - s) / b / 4⌋)) * b :=
        mul_nonneg (by linarith) hb.le
      linarith
  · intro h1
    rw [hd, if_pos h1]
  · intro h1
    rw [hd, if_neg (not_lt.mpr h1)]
    have hcs : c - s = ((c - s) / b) * b := (div_mul_cancel₀ _ hnz).symm
    have hquarter : (c - s) / (4 * b) = (c - s) / b / 4 := by
      rw [div_div, mul_comm b 4]
    have hceil : (⌈(c - s) / (4 * b)⌉ : ℤ) = ⌊(c - s) / b / 4⌋ + 1 := by
      rw [hquarter, Int.ceil_eq_iff]
      constructor
      · push_cast
        linarith
      · push_cast
        have h2 := Int.lt_floor_add_one ((c - s) / b / 4)
        push_cast at h2
        linarith
    rw [hceil]
    push_cast
    linear_combination hcs

/-- Witness for the amended C5: anchor 0, beat interval 1 (60 bpm), current
time 5 — one beat into a measure — gives the downbeat at time 8, which is 5
rounded up to the next multiple of 4. -/
theorem downbeat_alignment_witness :
    (5 : ℚ) ≤ Player.calculateNextDownbeat 0 1 5 ∧
    Player.calculateNextDownbeat 0 1 5 - 0 =
      4 * 1 * ⌈((5 : ℚ) - 0) / (4 * 1)⌉ := by
  have hfl : (⌊((5 : ℚ) - 0) / 1 / 4⌋ : ℤ) = 1 := by
    rw [Int.floor_eq_iff]; norm_num
  have h := downbeat_alignment 0 1 5 one_pos
  exact ⟨h.1, h.2.2 (by rw [hfl]; norm_num)⟩

/-- Witness for the amended C3: in the single run `start, phraseFinished`,
the machine is in `LISTENING` with phrase 5; the timeout re-enters
`PLAYBACK` with phrase 5 intact. -/
theorem session_safety_single_run_witness :
    (Session.enterPlayback
        { (⟨.listening, true, some 5, none, 1, 0, 0, 0⟩ : Session.MState) with
            pendingListen := 0 } none).st = Session.SState.playback ∧
    (Session.enterPlayback
        { (⟨.listening, true, some 5, none, 1, 0, 0, 0⟩ : Session.MState) with
            pendingListen := 0 } none).phrase = some 5 := by
  apply session_safety_single_run.1
    ⟨.listening, true, some 5, none, 1, 0, 0, 0⟩ none _ 5 ?_ rfl rfl
    (Session.Step.listenTimeout _ none 0 rfl rfl)
  have h1 : Session.ReachableNoStop
      (⟨.playback, true, some 5, none, 0, 0, 0, 0⟩ : Session.MState) :=
    Session.ReachableNoStop.step _ (.start (some 5)) _
      Session.ReachableNoStop.init
      (Session.Step.start Session.MState.init (some 5) rfl) (by decide)
  exact Session.ReachableNoStop.step _ .phraseFinished _ h1
    (Session.Step.phraseFinished _ rfl rfl) (by decide)
